import Mathlib

/-!
Shallow embedding of the EEMS core (consbio/EEMS, `EEMSBasePackage.py`):
the program scheduler (`EEMSProgram.__OrderCmds`), the command validator's
cross-field checks (`EEMSCmd.__ValidateCmd`), and the evaluation engine's
fuzzy operators (`EEMSCmdRunnerBase`), together with theorems checking the
natural-language specification against this embedding.

Numeric arrays are modelled as lists of rationals; a field's per-cell value
is a rational.  Multi-field elementwise operators are modelled per cell: the
list passed to a cell function holds that cell's value in each input field,
in the order the fields are listed in the command.
-/

namespace EEMS

/-! ## Scheduler data model

`EEMSProgram` stores one `EEMSCmd` per statement.  For the ordering
algorithm (`__OrderCmds`) only these attributes of a command matter:

* whether it is a read command (`IsReadCmd`, i.e. `READ`/`READMULTI`);
* the field names a read command defines (`__GetReadFieldNms`);
* the result field name of a non-read command (`GetResultName`);
* the field names a non-read command depends on (`__GetDependFieldNms`;
  for read commands that method returns the empty list);
* the raw statement text (`GetCommandString`), used in error messages.
-/

/-- One EEMS command, as seen by `EEMSProgram.__OrderCmds`.
`read text flds` is a `READ`/`READMULTI` command defining the fields
`flds`; `op text rslt depends` is any other command, defining the single
result field `rslt` and referencing the fields `depends`. -/
inductive Cmd where
  | read (text : String) (flds : List String)
  | op (text : String) (rslt : String) (depends : List String)
deriving DecidableEq, Repr

/-- `GetCommandString`. -/
def Cmd.text : Cmd → String
  | .read t _ => t
  | .op t _ _ => t

/-- `IsReadCmd`. -/
def Cmd.isRead : Cmd → Bool
  | .read _ _ => true
  | .op _ _ _ => false

/-- `__GetDependFieldNms`: the field names a command references; the
empty list for read commands. -/
def Cmd.depends : Cmd → List String
  | .read _ _ => []
  | .op _ _ ds => ds

/-- The field names a command defines: `__GetReadFieldNms` for a read
command, the singleton result name otherwise.  These are the names
entered into `allDefinedFieldNms` by `__AddCmd` and appended to
`dpndsInOrderedCmds` by `__OrderCmds`. -/
def Cmd.defs : Cmd → List String
  | .read _ flds => flds
  | .op _ r _ => [r]

/-- The field names defined by a list of commands, in order: the keys of
`allDefinedFieldNms` (as a membership test), and also the contents of
`dpndsInOrderedCmds` for the already-ordered commands. -/
def definedFieldNms (cmds : List Cmd) : List String :=
  (cmds.map Cmd.defs).flatten

/-- The undefined-dependency check at the top of `__OrderCmds`: the first
command (in declaration order) with a dependency outside
`allDefinedFieldNms`, returned with that dependency name. -/
def findUndefined (all : List String) : List Cmd → Option (String × String)
  | [] => none
  | c :: rest =>
    match c.depends.find? (fun d => !(all.contains d)) with
    | some d => some (d, c.text)
    | none => findUndefined all rest

/-- Whether `__OrderCmds` may move a command from the unordered to the
ordered list: read commands always move; other commands move once every
dependency is in `dpndsInOrderedCmds`. -/
def eligible (c : Cmd) (dpnds : List String) : Bool :=
  c.isRead || c.depends.all (fun d => dpnds.contains d)

/-- One full sweep of `__OrderCmds`' inner `for ndx in ndxs` loop.  The
Python loop walks the indices of `unorderedCmds` from last to first,
popping each eligible command, appending it to `orderedCmds` and
extending `dpndsInOrderedCmds` with the names it defines.  The result is
`(newly ordered commands in the order they were appended,
final dpndsInOrderedCmds, commands left unordered in original order)`. -/
def sweep : List Cmd → List String → List Cmd × List String × List Cmd
  | [], dpnds => ([], dpnds, [])
  | c :: rest, dpnds =>
    -- `rest` sits at higher indices, so the backwards loop visits it first
    let r := sweep rest dpnds
    if eligible c r.2.1 then (r.1 ++ [c], r.2.1 ++ c.defs, r.2.2)
    else (r.1, r.2.1, c :: r.2.2)

/-- Errors raised by `__OrderCmds`.  `outOfFuel` is an artefact of the
fuel-indexed model of the `while` loop; it is unreachable when the fuel
is at least the number of unordered commands (`orderLoop_no_outOfFuel`). -/
inductive OrderErr where
  | undefinedField (fld : String) (cmdText : String)
  | circular (cmdTexts : List String)
  | outOfFuel
deriving DecidableEq, Repr

/-- The `while len(self.unorderedCmds) > 0` loop of `__OrderCmds`: sweep
the unordered commands; if a full sweep moves nothing, fail with the
circular-logic error listing the text of every remaining command;
otherwise continue with the commands the sweep left unordered. -/
def orderLoop (fuel : Nat) (unordered : List Cmd) (dpnds : List String)
    (ordered : List Cmd) : Except OrderErr (List Cmd) :=
  match unordered with
  | [] => .ok ordered
  | _ :: _ =>
    match fuel with
    | 0 => .error .outOfFuel
    | fuel' + 1 =>
      let r := sweep unordered dpnds
      if r.2.2.length = unordered.length then
        .error (.circular (unordered.map Cmd.text))
      else
        orderLoop fuel' r.2.2 r.2.1 (ordered ++ r.1)

/-- `EEMSProgram.__OrderCmds`: first the undefined-dependency check over
all commands, then the ordering loop.  Each successful sweep strictly
shrinks the unordered list, so `cmds.length` fuel suffices. -/
def orderCmds (cmds : List Cmd) : Except OrderErr (List Cmd) :=
  match findUndefined (definedFieldNms cmds) cmds with
  | some (fld, txt) => .error (.undefinedField fld txt)
  | none => orderLoop cmds.length cmds [] []

/-! ## Scheduler invariants -/

/-- `ChainOK dpnds l`: every command in `l` only depends on fields either
in `dpnds` or defined by commands strictly earlier in `l`.  This is the
soundness invariant of the execution order. -/
def ChainOK : List String → List Cmd → Prop
  | _, [] => True
  | dpnds, c :: rest =>
    (∀ f ∈ c.depends, f ∈ dpnds) ∧ ChainOK (dpnds ++ c.defs) rest

theorem definedFieldNms_nil : definedFieldNms [] = [] := rfl

theorem definedFieldNms_cons (c : Cmd) (l : List Cmd) :
    definedFieldNms (c :: l) = c.defs ++ definedFieldNms l := by
  simp [definedFieldNms]

theorem definedFieldNms_append (l₁ l₂ : List Cmd) :
    definedFieldNms (l₁ ++ l₂) = definedFieldNms l₁ ++ definedFieldNms l₂ := by
  simp [definedFieldNms]

theorem ChainOK_append_singleton {d : List String} {l : List Cmd} {c : Cmd}
    (hl : ChainOK d l) (hc : ∀ f ∈ c.depends, f ∈ d ++ definedFieldNms l) :
    ChainOK d (l ++ [c]) := by
  induction l generalizing d with
  | nil =>
    refine ⟨fun f hf => ?_, trivial⟩
    simpa [definedFieldNms] using hc f hf
  | cons c' rest ih =>
    obtain ⟨h1, h2⟩ := hl
    refine ⟨h1, ih h2 fun f hf => ?_⟩
    have := hc f hf
    simpa [definedFieldNms_cons, List.append_assoc] using this

theorem ChainOK_append {d : List String} {l₁ l₂ : List Cmd}
    (h₁ : ChainOK d l₁) (h₂ : ChainOK (d ++ definedFieldNms l₁) l₂) :
    ChainOK d (l₁ ++ l₂) := by
  induction l₁ generalizing d with
  | nil => simpa [definedFieldNms] using h₂
  | cons c rest ih =>
    obtain ⟨hc, hrest⟩ := h₁
    refine ⟨hc, ih hrest ?_⟩
    simpa [definedFieldNms_cons, List.append_assoc] using h₂

/-- A sweep leaves at most as many commands unordered as it was given. -/
theorem sweep_kept_length_le (l : List Cmd) (d : List String) :
    (sweep l d).2.2.length ≤ l.length := by
  induction l with
  | nil => simp [sweep]
  | cons c rest ih =>
    simp only [sweep]
    by_cases h : eligible c (sweep rest d).2.1
    · simp only [h, if_true]
      exact Nat.le_succ_of_le ih
    · simp only [h, if_false, List.length_cons]
      exact Nat.succ_le_succ ih

/-- What one sweep establishes: the returned `dpndsInOrderedCmds` is the
incoming one extended by exactly the names defined by the newly ordered
commands, and the newly ordered commands form a dependency-sound chain
over the incoming `dpndsInOrderedCmds`. -/
theorem sweep_spec (l : List Cmd) (d : List String) :
    (sweep l d).2.1 = d ++ definedFieldNms (sweep l d).1 ∧
      ChainOK d (sweep l d).1 := by
  induction l with
  | nil => simp [sweep, definedFieldNms, ChainOK]
  | cons c rest ih =>
    obtain ⟨ihd, ihc⟩ := ih
    simp only [sweep]
    by_cases h : eligible c (sweep rest d).2.1
    · simp only [h, if_true]
      constructor
      · rw [ihd, definedFieldNms_append, definedFieldNms_cons,
          definedFieldNms_nil, List.append_nil, List.append_assoc]
      · refine ChainOK_append_singleton ihc fun f hf => ?_
        rw [← ihd]
        cases c with
        | read t flds => simp [Cmd.depends] at hf
        | op t r ds =>
          have hall : ds.all (fun x => (sweep rest d).2.1.contains x) = true := by
            simpa [eligible, Cmd.isRead, Cmd.depends] using h
          exact List.mem_of_elem_eq_true (List.all_eq_true.mp hall f hf)
    · simp only [h, if_false]
      exact ⟨ihd, ihc⟩

/-- The ordering loop preserves the chain invariant: whenever it returns
an ordered command list, that list is dependency-sound. -/
theorem orderLoop_chain (fuel : Nat) :
    ∀ (u : List Cmd) (d : List String) (o final : List Cmd),
      ChainOK [] o → d = definedFieldNms o →
      orderLoop fuel u d o = .ok final → ChainOK [] final := by
  induction fuel with
  | zero =>
    intro u d o final ho hd h
    cases u with
    | nil =>
      simp only [orderLoop] at h
      cases h; exact ho
    | cons c rest => simp [orderLoop] at h
  | succ fuel ih =>
    intro u d o final ho hd h
    cases u with
    | nil =>
      simp only [orderLoop] at h
      cases h; exact ho
    | cons c rest =>
      simp only [orderLoop] at h
      by_cases hk : (sweep (c :: rest) d).2.2.length = (c :: rest).length
      · simp [hk] at h
      · simp only [hk, if_false] at h
        obtain ⟨hd2, hc2⟩ := sweep_spec (c :: rest) d
        refine ih _ _ _ _ ?_ ?_ h
        · exact ChainOK_append ho (by rw [← hd]; simpa using hc2)
        · rw [hd2, hd, definedFieldNms_append]

/-- With fuel at least the number of unordered commands, the fuel-indexed
model of the `while` loop never runs out: the model is faithful to the
unbounded Python loop. -/
theorem orderLoop_no_outOfFuel (fuel : Nat) :
    ∀ (u : List Cmd) (d : List String) (o : List Cmd),
      u.length ≤ fuel → orderLoop fuel u d o ≠ .error .outOfFuel := by
  induction fuel with
  | zero =>
    intro u d o hu
    cases u with
    | nil => simp [orderLoop]
    | cons c rest => simp at hu
  | succ fuel ih =>
    intro u d o hu
    cases u with
    | nil => simp [orderLoop]
    | cons c rest =>
      simp only [orderLoop]
      by_cases hk : (sweep (c :: rest) d).2.2.length = (c :: rest).length
      · simp [hk]
      · simp only [hk, if_false]
        refine ih _ _ _ ?_
        have hle := sweep_kept_length_le (c :: rest) d
        have hlt : (sweep (c :: rest) d).2.2.length < (c :: rest).length :=
          lt_of_le_of_ne hle hk
        omega

/-- From the chain invariant to the positional statement: a field
referenced at position `j` is either ambient or defined at some earlier
position `i < j`. -/
theorem ChainOK_get {d : List String} {l : List Cmd} (h : ChainOK d l) :
    ∀ (j : Nat) (hj : j < l.length), ∀ f ∈ (l.get ⟨j, hj⟩).depends,
      f ∈ d ∨ ∃ (i : Nat) (hi : i < l.length),
        i < j ∧ f ∈ (l.get ⟨i, hi⟩).defs := by
  induction l generalizing d with
  | nil => intro j hj; simp at hj
  | cons c rest ih =>
    obtain ⟨hc, hrest⟩ := h
    intro j hj f hf
    cases j with
    | zero => exact Or.inl (hc f hf)
    | succ k =>
      have hk : k < rest.length := Nat.lt_of_succ_lt_succ hj
      have := ih hrest k hk f (by simpa using hf)
      rcases this with hin | ⟨i, hi, hik, hdef⟩
      · rcases List.mem_append.mp hin with hd' | hdefs
        · exact Or.inl hd'
        · exact Or.inr ⟨0, Nat.succ_pos _, Nat.succ_pos _, by simpa using hdefs⟩
      · exact Or.inr ⟨i + 1, Nat.succ_lt_succ hi, Nat.succ_lt_succ hik,
          by simpa using hdef⟩

/-- If the undefined-dependency check passes, every dependency of every
command is defined somewhere in the program. -/
theorem findUndefined_none {all : List String} {cmds : List Cmd}
    (h : findUndefined all cmds = none) :
    ∀ c ∈ cmds, ∀ f ∈ c.depends, f ∈ all := by
  induction cmds with
  | nil => intro c hc; simp at hc
  | cons c rest ih =>
    intro c' hc' f hf
    simp only [findUndefined] at h
    cases hfind : c.depends.find? (fun d => !(all.contains d)) with
    | some d => rw [hfind] at h; simp at h
    | none =>
      rw [hfind] at h
      rcases List.mem_cons.mp hc' with rfl | hmem
      · have := List.find?_eq_none.mp hfind f hf
        have hcont : all.contains f = true := by
          by_contra hcf
          exact this (by simpa using hcf)
        exact List.mem_of_elem_eq_true hcont
      · exact ih h c' hmem f hf

/-- Conversely, if some command has an undefined dependency, the check
reports one. -/
theorem findUndefined_isSome {all : List String} {cmds : List Cmd}
    (h : ∃ c ∈ cmds, ∃ f ∈ c.depends, f ∉ all) :
    ∃ fld txt, findUndefined all cmds = some (fld, txt) := by
  by_contra hne
  push_neg at hne
  cases hopt : findUndefined all cmds with
  | some p => exact hne p.1 p.2 (by rw [hopt])
  | none =>
    obtain ⟨c, hc, f, hf, hnot⟩ := h
    exact hnot (findUndefined_none hopt c hc f hf)

/-! ## Concrete programs used as witnesses and counterexamples -/

/-- `A` read from the input file (the spec's end-to-end example). -/
def cmdReadA : Cmd := .read "READ(InFileName = in.csv, InFieldName = A)" ["A"]

/-- `B = CVTTOFUZZY(InFieldName = A, ...)`: defines `B`, reads `A`. -/
def cmdCvtB : Cmd :=
  .op "B = CVTTOFUZZY(InFieldName = A, TrueThreshold = 100, FalseThreshold = 0)"
    "B" ["A"]

/-- `C = NOT(InFieldName = B)`: defines `C`, reads `B`. -/
def cmdNotC : Cmd := .op "C = NOT(InFieldName = B)" "C" ["B"]

/-- The three-command chain program `A` (source read), `B = f(A)`, `C = g(B)`. -/
def progABC : List Cmd := [cmdReadA, cmdCvtB, cmdNotC]

/-- `D = OR(InFieldNames = [E])`: defines `D`, reads `E`. -/
def cmdCycleD : Cmd := .op "D = OR(InFieldNames = [E])" "D" ["E"]

/-- `E = OR(InFieldNames = [D])`: defines `E`, reads `D`. -/
def cmdCycleE : Cmd := .op "E = OR(InFieldNames = [D])" "E" ["D"]

/-- A command referencing the never-defined field `Z`. -/
def cmdUndefZ : Cmd := .op "B = NOT(InFieldName = Z)" "B" ["Z"]

/-- First of two independent read commands. -/
def cmdRead1 : Cmd := .read "READ(InFileName = in.csv, InFieldName = R1)" ["R1"]

/-- Second of two independent read commands. -/
def cmdRead2 : Cmd := .read "READ(InFileName = in.csv, InFieldName = R2)" ["R2"]

/-! ## Claims about the scheduler -/

/-- C1: for every successfully loaded program the computed execution
order respects the dependency graph: any field referenced by the command
at position `j` of the ordered list is defined by some command at an
earlier position `i < j`.  In particular, in a chain `A` (source read),
`B = f(A)`, `C = g(B)` the order places `A`'s command before `B`'s
before `C`'s (see the witness, which instantiates this theorem on that
chain program). -/
theorem orderCmds_respects_dependencies
    (cmds ord : List Cmd) (h : orderCmds cmds = .ok ord)
    (j : Nat) (hj : j < ord.length) :
    ∀ f ∈ (ord.get ⟨j, hj⟩).depends,
      ∃ (i : Nat) (hi : i < ord.length), i < j ∧ f ∈ (ord.get ⟨i, hi⟩).defs := by
  intro f hf
  unfold orderCmds at h
  cases hfind : findUndefined (definedFieldNms cmds) cmds with
  | some p =>
    rw [hfind] at h
    cases h
  | none =>
    rw [hfind] at h
    have hchain : ChainOK [] ord :=
      orderLoop_chain cmds.length cmds [] [] ord trivial rfl h
    rcases ChainOK_get hchain j hj f hf with hin | hex
    · simp at hin
    · exact hex

/-- Witness for C1: on the chain program `A` read, `B = f(A)`, `C = g(B)`
(which `orderCmds` orders as `[A, B, C]`), the field `B` referenced by
the command at position 2 is defined at a position before 2. -/
theorem orderCmds_respects_dependencies_witness :
    ∃ (i : Nat) (hi : i < progABC.length),
      i < 2 ∧ "B" ∈ (progABC.get ⟨i, hi⟩).defs :=
  orderCmds_respects_dependencies progABC progABC rfl 2 (by decide) "B" (by decide)

/-- C3: if one full sweep of the ordering loop moves no command while
commands remain, loading fails with the circular-dependency error whose
message lists the text of every remaining command; and the two-command
program `D = OR(InFieldNames=[E])`, `E = OR(InFieldNames=[D])` fails
with exactly that error naming both commands. -/
theorem orderCmds_cycle_error :
    (∀ (fuel : Nat) (u : List Cmd) (d : List String) (o : List Cmd),
        u ≠ [] → (sweep u d).2.2.length = u.length →
        orderLoop (fuel + 1) u d o = .error (.circular (u.map Cmd.text))) ∧
    orderCmds [cmdCycleD, cmdCycleE] =
      .error (.circular ["D = OR(InFieldNames = [E])", "E = OR(InFieldNames = [D])"]) := by
  constructor
  · intro fuel u d o hu hk
    cases u with
    | nil => exact absurd rfl hu
    | cons c rest => simp only [orderLoop, hk, if_true]
  · rfl

/-- Witness for C3: the first part of the theorem applied to the stuck
state of the `D`/`E` cycle program (no command is eligible, so the sweep
keeps both). -/
theorem orderCmds_cycle_error_witness :
    orderLoop 2 [cmdCycleD, cmdCycleE] [] [] =
      .error (.circular ["D = OR(InFieldNames = [E])", "E = OR(InFieldNames = [D])"]) :=
  orderCmds_cycle_error.1 1 [cmdCycleD, cmdCycleE] [] [] (by decide) (by decide)

/-- C4: a program in which some command references a field no command
defines fails with the undefined-field error; this error is produced by
the dependency check preceding the ordering loop (the conclusion holds
whatever the sweep would do), and it is distinct from the
circular-dependency error. -/
theorem orderCmds_undefined_dependency
    (cmds : List Cmd)
    (h : ∃ c ∈ cmds, ∃ f ∈ c.depends, f ∉ definedFieldNms cmds) :
    ∃ fld txt, orderCmds cmds = .error (.undefinedField fld txt) ∧
      ∀ ts, OrderErr.undefinedField fld txt ≠ OrderErr.circular ts := by
  obtain ⟨fld, txt, hfind⟩ := findUndefined_isSome h
  refine ⟨fld, txt, ?_, fun ts hcontra => OrderErr.noConfusion hcontra⟩
  unfold orderCmds
  rw [hfind]

/-- Witness for C4: the two-command program reading `A` and computing
`B = NOT(InFieldName = Z)` references the never-defined field `Z`. -/
theorem orderCmds_undefined_dependency_witness :
    ∃ fld txt,
      orderCmds [cmdReadA, cmdUndefZ] = .error (.undefinedField fld txt) ∧
      ∀ ts, OrderErr.undefinedField fld txt ≠ OrderErr.circular ts :=
  orderCmds_undefined_dependency [cmdReadA, cmdUndefZ] (by decide)

/-- Counterexample to C5 as stated: two read commands declared in the
order `R1`, `R2` are both eligible in the very first sweep, yet the
computed order is `[R2, R1]` — the reverse of declaration order, not
declaration order. -/
theorem orderCmds_not_declaration_stable :
    orderCmds [cmdRead1, cmdRead2] = .ok [cmdRead2, cmdRead1] ∧
      ([cmdRead2, cmdRead1] : List Cmd) ≠ [cmdRead1, cmdRead2] :=
  ⟨rfl, by decide⟩

/-- C5 amended: commands that become eligible in the same sweep are
appended to the ordered list in reverse declaration order, because the
sweep iterates the pending command list from the last index down to the
first: the commands a sweep orders form a sublist of the reversed
pending list. -/
theorem sweep_orders_reverse_of_declaration (l : List Cmd) (d : List String) :
    (sweep l d).1.Sublist l.reverse := by
  induction l with
  | nil => simp [sweep]
  | cons c rest ih =>
    simp only [sweep, List.reverse_cons]
    by_cases h : eligible c (sweep rest d).2.1
    · simp only [h, if_true]
      exact List.Sublist.append ih (List.Sublist.refl [c])
    · simp only [h, if_false]
      exact ih.trans (List.sublist_append_left _ _)

/-! ## Evaluation engine (`EEMSCmdRunnerBase`)

Array data is modelled over `ℚ`.  Each elementwise operator is modelled
per cell; for multi-field operators the argument list holds the cell's
value in each input field, in command order.  The trailing pair of
`np.ma.where` clips appearing in every fuzzy operator is `clipFuzzy`. -/

/-- `np.ma.where(newData > 1.0, 1.0, newData)`. -/
def clipHi (v : ℚ) : ℚ := if v > 1 then 1 else v

/-- `np.ma.where(newData < -1.0, -1.0, newData)`. -/
def clipLo (v : ℚ) : ℚ := if v < -1 then -1 else v

/-- The two clips, in the order the source applies them. -/
def clipFuzzy (v : ℚ) : ℚ := clipLo (clipHi v)

/-- The fuzzy-range guard `_VerifyFuzzyField` passes a field iff its
data stays within `[-1, 1]`; per cell that is this predicate. -/
def inFuzzyRange (v : ℚ) : Prop := -1 ≤ v ∧ v ≤ 1

/-- `FuzzyNot`: `-1.0 * x`, clipped. -/
def fuzzyNotCell (x : ℚ) : ℚ := clipFuzzy (-1 * x)

/-- `FuzzyOr` over one cell of fields `x :: xs`: running `np.ma.maximum`
starting from the first field, clipped. -/
def fuzzyOrCell (x : ℚ) (xs : List ℚ) : ℚ := clipFuzzy (xs.foldl max x)

/-- `FuzzyAnd` over one cell: running `np.ma.minimum`, clipped. -/
def fuzzyAndCell (x : ℚ) (xs : List ℚ) : ℚ := clipFuzzy (xs.foldl min x)

/-- `FuzzyUnion` over one cell of fields `xs`: sum accumulated from a
zero array, divided by the number of fields, clipped. -/
def fuzzyUnionCell (xs : List ℚ) : ℚ := clipFuzzy (xs.sum / xs.length)

/-- `FuzzyEMDSAnd` over one cell of fields `x :: xs`:
`min + (mean - min) * (min + 1) / 2`, clipped. -/
def fuzzyEMDSAndCell (x : ℚ) (xs : List ℚ) : ℚ :=
  let minVals := xs.foldl min x
  let meanVals := (x + xs.sum) / (1 + xs.length)
  clipFuzzy (minVals + (meanVals - minVals) * (minVals + 1) / 2)

/-- `FuzzyWeightedUnion` over one cell: weighted sum accumulated from a
zero array, divided by `sum(weights)`, clipped. -/
def fuzzyWeightedUnionCell (xs ws : List ℚ) : ℚ :=
  clipFuzzy ((List.zipWith (· * ·) xs ws).sum / ws.sum)

/-- `FuzzyEMDSWeighteddAnd` (sic — the method name in the source has a
doubled `d`) over one cell of fields `x :: xs` with weights `w :: ws`:
the per-cell minimum and the weighted mean (weighted sum divided by
`sum(weights)`), combined as `min + (wmean - min) * (min + 1) / 2`,
clipped. -/
def fuzzyEMDSWeighteddAndCell (x : ℚ) (xs : List ℚ) (w : ℚ) (ws : List ℚ) : ℚ :=
  let minVals := xs.foldl min x
  let meanVals := (x * w + (List.zipWith (· * ·) xs ws).sum) / (w + ws.sum)
  clipFuzzy (minVals + (meanVals - minVals) * (minVals + 1) / 2)

/-- `FuzzyXOr` over one cell: stack the fields' values, sort ascending
(`stackedArrs.sort(axis=0)`), take `stackedArrs[-1]` (the truest) and
`stackedArrs[-2]` (the second truest); where the truest is not `-1`
apply `truest - (truest - second) * (second - -1) / (truest - -1)`,
else `-1`; finally clip.  Meaningful for at least two fields; `FuzzyXOr`
raises before this computation when fewer are supplied. -/
def fuzzyXOrCell (xs : List ℚ) : ℚ :=
  let s := xs.insertionSort (· ≤ ·)
  let t := s.getLastD 0
  let u := s.dropLast.getLastD 0
  clipFuzzy (if t ≠ -1 then t - (t - u) * (u - -1) / (t - -1) else -1)

/-- Errors raised by the engine operators modelled here. -/
inductive RunnerErr where
  | xorTooFewFields
  | badTruestOrFalsest (value : String)
  | equalThresholds (thresh : ℚ)
  | attributeError (missingMethod : String)
  | nameError (missingName : String)
deriving DecidableEq, Repr

/-- The arity check at the top of `FuzzyXOr`: fewer than two input
fields is an error. -/
def fuzzyXOrArityCheck (inFieldNames : List String) : Except RunnerErr Unit :=
  if inFieldNames.length < 2 then .error .xorTooFewFields else .ok ()

/-- Mean of a list of rationals (`.mean(axis=0)` over the selected rows,
per cell). -/
def meanQ (l : List ℚ) : ℚ := l.sum / l.length

/-- `FuzzySelectedUnion` over one cell: with a single input field the
source copies the field verbatim (no clip); otherwise it sorts the
stacked values ascending and averages `numberToConsider` rows from the
top (`Truest`, matched case-insensitively) or the bottom (`Falsest`),
clipping the mean.  Any other selector value is an error. -/
def fuzzySelectedUnionCell (xs : List ℚ) (truestOrFalsest : String)
    (numberToConsider : Nat) : Except RunnerErr ℚ :=
  if xs.length = 1 then .ok (xs.getD 0 0)
  else
    let s := xs.insertionSort (· ≤ ·)
    if truestOrFalsest.toLower = "truest" then
      .ok (clipFuzzy (meanQ (s.drop (xs.length - numberToConsider))))
    else if truestOrFalsest.toLower = "falsest" then
      .ok (clipFuzzy (meanQ (s.take numberToConsider)))
    else .error (.badTruestOrFalsest truestOrFalsest)

/-- `EEMSCmdRunnerBase.MinForFuzzyLimit`. -/
def MinForFuzzyLimit : ℚ := -9999

/-- `EEMSCmdRunnerBase.MaxForFuzzyLimit`. -/
def MaxForFuzzyLimit : ℚ := 9999

/-- `.min()` of a field's data (0 for the empty field, which the source
cannot produce). -/
def listMin : List ℚ → ℚ
  | [] => 0
  | x :: xs => xs.foldl min x

/-- `.max()` of a field's data. -/
def listMax : List ℚ → ℚ
  | [] => 0
  | x :: xs => xs.foldl max x

/-- `CvtToFuzzy`: resolve the sentinel thresholds against the field's
observed min/max, reject equal thresholds, then apply
`m = (-1 - 1) / (falseThresh - trueThresh)`, `b = 1 - m * trueThresh`,
`data * m + b`, and clip. -/
def cvtToFuzzy (data : List ℚ) (trueThreshold falseThreshold : ℚ) :
    Except RunnerErr (List ℚ) :=
  let falseThresh :=
    if falseThreshold = MinForFuzzyLimit then listMin data
    else if falseThreshold = MaxForFuzzyLimit then listMax data
    else falseThreshold
  let trueThresh :=
    if trueThreshold = MinForFuzzyLimit then listMin data
    else if trueThreshold = MaxForFuzzyLimit then listMax data
    else trueThreshold
  if trueThresh = falseThresh then .error (.equalThresholds trueThresh)
  else
    let m := (-1 - 1) / (falseThresh - trueThresh)
    let b := 1 - m * trueThresh
    .ok (data.map (fun x => clipFuzzy (x * m + b)))

/-- `CvtToFuzzyCurve` per cell: start from a filler value, overwrite
with `fuzzyValues[0]` for cells at or below `rawValues[0]`, then for
each `ndx` from 1 on overwrite cells in `(rawValues[ndx-1],
rawValues[ndx]]` with the segment's linear interpolation, overwrite
cells above the last raw value with the last fuzzy value, and clip.
(The source seeds masked/NaN handling on the filler; `ℚ` has no NaN, so
only the filler value `-9999` is kept.) -/
def cvtToFuzzyCurveCell (rawValues fuzzyValues : List ℚ) (x : ℚ) : ℚ :=
  let v0 : ℚ := if x ≤ rawValues.getD 0 0 then fuzzyValues.getD 0 0 else -9999
  let v1 := (List.range (rawValues.length - 1)).foldl
    (fun acc i =>
      let ndx := i + 1
      let m := (fuzzyValues.getD ndx 0 - fuzzyValues.getD (ndx - 1) 0) /
        (rawValues.getD ndx 0 - rawValues.getD (ndx - 1) 0)
      let b := fuzzyValues.getD (ndx - 1) 0 - m * rawValues.getD (ndx - 1) 0
      if x ≤ rawValues.getD (ndx - 1) 0 then acc
      else if x ≤ rawValues.getD ndx 0 then x * m + b
      else acc) v0
  let v2 := if x > rawValues.getLastD 0 then fuzzyValues.getLastD 0 else v1
  clipFuzzy v2

/-- The names bound at the top level of `EEMSBasePackage.py`: the two
imports (`import re`, `import numpy as np`) and the five classes.  No
name `cp` is ever bound. -/
def eemsModuleTopLevelNames : List String :=
  ["re", "np", "EEMSCmd", "EEMSProgram", "EEMSCmdRunnerBase",
   "EEMSInterpreter", "EEMSUtils"]

/-- `MeanToMid`: with `ignoreZeros` the statistics are taken over the
non-zero cells; without it the source evaluates `cp.deepcopy(...)`,
which resolves the module-level name `cp` — modelled as a lookup in
`eemsModuleTopLevelNames` that raises `NameError` when absent.  The
five raw anchors (min, mean of the below-mean values, mean, mean of the
above-mean values, max) are then fed to the curve conversion. -/
def meanToMid (data : List ℚ) (ignoreZeros : Bool) (fuzzyValues : List ℚ) :
    Except RunnerErr (List ℚ) := do
  let valArr ←
    if ignoreZeros then pure (data.filter (fun v => v ≠ 0))
    else if "cp" ∈ eemsModuleTopLevelNames then pure data
    else throw (.nameError "cp")
  let meanVal := meanQ valArr
  let lowVal := listMin valArr
  let lowMeanVal := meanQ (valArr.filter (fun v => v < meanVal))
  let hiVal := listMax valArr
  let hiMeanVal := meanQ (valArr.filter (fun v => v > meanVal))
  pure (data.map
    (cvtToFuzzyCurveCell [lowVal, lowMeanVal, meanVal, hiMeanVal, hiVal]
      fuzzyValues))

/-! ## Orchestrator dispatch (`EEMSInterpreter.RunProgram`) -/

/-- The method names defined by `class EEMSCmdRunnerBase` (and not
overridden away by the repository's `EEMSCmdRunner` subclasses, which
only add `_WriteFldsToFiles`, `ReadMulti` and `Finish` overrides). -/
def runnerMethodNames : List String :=
  ["__init__", "__enter__", "_WriteFldsToFiles", "_CreateOutFileMap",
   "_AddFieldToEEMSFlds", "_VerifyFuzzyField", "_LinearCvtArray",
   "Read", "ReadMulti", "CvtToFuzzy", "CvtToFuzzyCurve", "CvtToFuzzyCat",
   "CopyField", "DifFlds", "MinFlds", "MaxFlds", "SumFlds", "MeanFlds",
   "FuzzyNot", "FuzzyUnion", "FuzzyOr", "FuzzyAnd", "FuzzyEMDSAnd",
   "FuzzyOrNeg", "FuzzyWeightedUnion", "FuzzyEMDSWeighteddAnd",
   "WeightedMean", "WeightedSum", "FuzzySelectedUnion", "FuzzyXOr",
   "ScoreRangeBenefit", "ScoreRangeCost", "MeanToMid", "CallExtern",
   "Finish", "__exit__"]

/-- The attribute name `RunProgram`'s `WTDEMDSAND` branch looks up on the
command runner (`self.myCmdRunner.FuzzyEMDSWeightedAnd(...)`). -/
def wtdEmdsAndDispatchTarget : String := "FuzzyEMDSWeightedAnd"

/-- The `WTDEMDSAND` branch of `RunProgram`, per cell: resolve the
attribute `FuzzyEMDSWeightedAnd` on the runner and, if it exists, invoke
it on the cell's field values and the command's weights; an unresolved
attribute is Python's `AttributeError`. -/
def dispatchWTDEMDSANDCell (x : ℚ) (xs : List ℚ) (w : ℚ) (ws : List ℚ) :
    Except RunnerErr ℚ :=
  if runnerMethodNames.contains wtdEmdsAndDispatchTarget then
    .ok (fuzzyEMDSWeighteddAndCell x xs w ws)
  else .error (.attributeError wtdEmdsAndDispatchTarget)

/-! ## Command validation (`EEMSCmd.__ValidateCmd`, cross-field checks)

The checks below model the command-kind-specific section of
`__ValidateCmd` (the part after result/parameter-name/type checking),
which runs inside `EEMSCmd.__init__`, i.e. at command construction.
Parameters are taken after `__ListFromListParam` / numeric conversion:
list parameters as lists, `NumberToConsider` as an integer. -/

/-- The parameters of a parsed command that the cross-field checks read.
A field is only meaningful when the command kind has that parameter. -/
structure CmdParams where
  cmd : String
  rawValues : List ℚ := []
  fuzzyValues : List ℚ := []
  inFieldNames : List String := []
  weights : List ℚ := []
  numberToConsider : Int := 0
deriving DecidableEq, Repr

/-- Errors raised by the cross-field checks. -/
inductive ValidateErr where
  | rawFuzzyLenMismatch (nRaw nFuzzy : Nat)
  | rawValueRepeated (v : ℚ)
  | weightsLenMismatch (nFlds nWts : Nat)
  | numberToConsiderTooBig (n : Int) (nFlds : Nat)
  | fuzzyValuesNotFive (n : Nat)
deriving DecidableEq, Repr

/-- The `for ndx in range(0, len(rawVals)-1)` duplicate scan: the first
raw value that re-appears later in the list. -/
def findRepeated : List ℚ → Option ℚ
  | [] => none
  | x :: rest => if rest.contains x then some x else findRepeated rest

/-- The cross-field cardinality/uniqueness checks of `__ValidateCmd`, in
source order: paired raw/fuzzy lists (length equality, raw uniqueness)
for the curve/categorical conversions, field/weight length equality for
the weighted commands, `NumberToConsider` bounded by the field count for
`SELECTEDUNION`, and exactly five fuzzy values for `MEANTOMID`. -/
def validateCmdCrossChecks (p : CmdParams) : Except ValidateErr Unit := do
  if p.cmd ∈ ["CVTTOFUZZYCURVE", "CVTTOFUZZYCAT"] then
    if p.rawValues.length ≠ p.fuzzyValues.length then
      throw (.rawFuzzyLenMismatch p.rawValues.length p.fuzzyValues.length)
    match findRepeated p.rawValues with
    | some v => throw (.rawValueRepeated v)
    | none => pure ()
  if p.cmd ∈ ["WTDUNION", "WTDMEAN", "WTDSUM", "WTDEMDSAND"] then
    if p.inFieldNames.length ≠ p.weights.length then
      throw (.weightsLenMismatch p.inFieldNames.length p.weights.length)
  if p.cmd ∈ ["SELECTEDUNION"] then
    if p.numberToConsider > (p.inFieldNames.length : Int) then
      throw (.numberToConsiderTooBig p.numberToConsider p.inFieldNames.length)
  if p.cmd ∈ ["MEANTOMID"] then
    if p.fuzzyValues.length ≠ 5 then
      throw (.fuzzyValuesNotFive p.fuzzyValues.length)

/-! ## Claims about the evaluation engine -/

theorem clipFuzzy_range (v : ℚ) : inFuzzyRange (clipFuzzy v) := by
  unfold inFuzzyRange clipFuzzy clipLo clipHi
  split_ifs <;> constructor <;> linarith

/-- C2: every unmasked cell produced by the fuzzy operators NOT, AND,
OR, UNION, EMDSAND, the weighted variants WTDUNION and WTDEMDSAND, XOR
and SELECTEDUNION lies in `[-1, 1]`, whenever the input fields pass the
fuzzy-range guard `_VerifyFuzzyField`. -/
theorem fuzzyOps_range :
    (∀ x : ℚ, inFuzzyRange x → inFuzzyRange (fuzzyNotCell x)) ∧
    (∀ (x : ℚ) (xs : List ℚ), inFuzzyRange x → (∀ v ∈ xs, inFuzzyRange v) →
      inFuzzyRange (fuzzyAndCell x xs)) ∧
    (∀ (x : ℚ) (xs : List ℚ), inFuzzyRange x → (∀ v ∈ xs, inFuzzyRange v) →
      inFuzzyRange (fuzzyOrCell x xs)) ∧
    (∀ xs : List ℚ, (∀ v ∈ xs, inFuzzyRange v) →
      inFuzzyRange (fuzzyUnionCell xs)) ∧
    (∀ (x : ℚ) (xs : List ℚ), inFuzzyRange x → (∀ v ∈ xs, inFuzzyRange v) →
      inFuzzyRange (fuzzyEMDSAndCell x xs)) ∧
    (∀ (xs ws : List ℚ), (∀ v ∈ xs, inFuzzyRange v) →
      inFuzzyRange (fuzzyWeightedUnionCell xs ws)) ∧
    (∀ (x : ℚ) (xs : List ℚ) (w : ℚ) (ws : List ℚ),
      inFuzzyRange x → (∀ v ∈ xs, inFuzzyRange v) →
      inFuzzyRange (fuzzyEMDSWeighteddAndCell x xs w ws)) ∧
    (∀ xs : List ℚ, (∀ v ∈ xs, inFuzzyRange v) →
      inFuzzyRange (fuzzyXOrCell xs)) ∧
    (∀ (xs : List ℚ) (sel : String) (n : Nat) (r : ℚ),
      (∀ v ∈ xs, inFuzzyRange v) →
      fuzzySelectedUnionCell xs sel n = .ok r → inFuzzyRange r) := by
  refine ⟨fun x _ => clipFuzzy_range _,
    fun x xs _ _ => clipFuzzy_range _,
    fun x xs _ _ => clipFuzzy_range _,
    fun xs _ => clipFuzzy_range _,
    fun x xs _ _ => clipFuzzy_range _,
    fun xs ws _ => clipFuzzy_range _,
    fun x xs w ws _ _ => clipFuzzy_range _,
    fun xs _ => clipFuzzy_range _,
    fun xs sel n r hin hok => ?_⟩
  unfold fuzzySelectedUnionCell at hok
  by_cases h1 : xs.length = 1
  · rw [if_pos h1] at hok
    obtain ⟨a, ha⟩ := List.length_eq_one.mp h1
    cases hok
    subst ha
    exact hin _ (by simp)
  · rw [if_neg h1] at hok
    by_cases ht : sel.toLower = "truest"
    · rw [if_pos ht] at hok
      cases hok
      exact clipFuzzy_range _
    · rw [if_neg ht] at hok
      by_cases hf : sel.toLower = "falsest"
      · rw [if_pos hf] at hok
        cases hok
        exact clipFuzzy_range _
      · rw [if_neg hf] at hok
        cases hok

/-- Witness for C2: each operator applied to concrete in-range inputs. -/
theorem fuzzyOps_range_witness :
    inFuzzyRange (fuzzyNotCell (1/2)) ∧
    inFuzzyRange (fuzzyAndCell (1/2) [-1/3]) ∧
    inFuzzyRange (fuzzyOrCell (1/2) [-1/3]) ∧
    inFuzzyRange (fuzzyUnionCell [1/2, -1/3]) ∧
    inFuzzyRange (fuzzyEMDSAndCell (1/2) [-1/3]) ∧
    inFuzzyRange (fuzzyWeightedUnionCell [1/2, -1/3] [1, 2]) ∧
    inFuzzyRange (fuzzyEMDSWeighteddAndCell (1/2) [-1/3] 1 [2]) ∧
    inFuzzyRange (fuzzyXOrCell [1/2, -1/3]) ∧
    (∀ r : ℚ, fuzzySelectedUnionCell [1/2] "Truest" 1 = .ok r → inFuzzyRange r) := by
  have hx : inFuzzyRange ((1:ℚ)/2) := by constructor <;> norm_num
  have hy : ∀ v ∈ [(-1:ℚ)/3], inFuzzyRange v := by
    intro v hv
    simp only [List.mem_singleton] at hv
    subst hv
    constructor <;> norm_num
  have hxy : ∀ v ∈ [(1:ℚ)/2, -1/3], inFuzzyRange v := by
    intro v hv
    simp only [List.mem_cons, List.mem_singleton, List.not_mem_nil, or_false] at hv
    rcases hv with rfl | rfl
    · exact hx
    · constructor <;> norm_num
  exact ⟨fuzzyOps_range.1 _ hx,
    fuzzyOps_range.2.1 _ _ hx hy,
    fuzzyOps_range.2.2.1 _ _ hx hy,
    fuzzyOps_range.2.2.2.1 _ hxy,
    fuzzyOps_range.2.2.2.2.1 _ _ hx hy,
    fuzzyOps_range.2.2.2.2.2.1 _ _ hxy,
    fuzzyOps_range.2.2.2.2.2.2.1 _ _ _ _ hx hy,
    fuzzyOps_range.2.2.2.2.2.2.2.1 _ hxy,
    fun r => fuzzyOps_range.2.2.2.2.2.2.2.2 _ _ _ r (by
      intro v hv
      simp only [List.mem_singleton] at hv
      subst hv
      exact hx)⟩

/-- The straight line through `(x₁, y₁)` and `(x₂, y₂)`, evaluated at
`x` (the spec's description of `CvtToFuzzy`'s mapping). -/
def lineThrough (x₁ y₁ x₂ y₂ x : ℚ) : ℚ :=
  y₁ + (x - x₁) * ((y₂ - y₁) / (x₂ - x₁))

/-- C7: for non-sentinel, distinct thresholds `CvtToFuzzy` maps each
cell `x` to the value at `x` of the line through `(falseThresh, -1)` and
`(trueThresh, +1)`, clamped to `[-1, 1]`; with `TrueThreshold = 100`,
`FalseThreshold = 0` over `[0, 50, 100]` the result is `[-1, 0, 1]`, and
NOT of that result is `[1, 0, -1]`. -/
theorem cvtToFuzzy_line :
    (∀ (data : List ℚ) (tT fT : ℚ),
      tT ≠ fT → tT ≠ MinForFuzzyLimit → tT ≠ MaxForFuzzyLimit →
      fT ≠ MinForFuzzyLimit → fT ≠ MaxForFuzzyLimit →
      cvtToFuzzy data tT fT =
        .ok (data.map fun x => clipFuzzy (lineThrough fT (-1) tT 1 x))) ∧
    cvtToFuzzy [0, 50, 100] 100 0 = .ok [-1, 0, 1] ∧
    ([-1, 0, 1] : List ℚ).map fuzzyNotCell = [1, 0, -1] := by
  refine ⟨fun data tT fT hne htMin htMax hfMin hfMax => ?_, ?_, ?_⟩
  · have hstep : cvtToFuzzy data tT fT =
        .ok (data.map fun x =>
          clipFuzzy (x * ((-1 - 1) / (fT - tT)) + (1 - (-1 - 1) / (fT - tT) * tT))) := by
      simp only [cvtToFuzzy, if_neg hfMin, if_neg hfMax, if_neg htMin,
        if_neg htMax, if_neg hne]
    rw [hstep]
    congr 1
    apply List.map_congr_left
    intro x _
    congr 1
    unfold lineThrough
    have h2 : tT - fT ≠ 0 := sub_ne_zero.mpr hne
    have h1 : fT - tT ≠ 0 := fun hc => h2 (by linarith [sub_eq_zero.mp hc])
    field_simp
    ring
  · norm_num [cvtToFuzzy, MinForFuzzyLimit, MaxForFuzzyLimit, clipFuzzy,
      clipHi, clipLo]
  · norm_num [fuzzyNotCell, clipFuzzy, clipHi, clipLo]

/-- Witness for C7: the formula part instantiated on the concrete
end-to-end example (thresholds 100 and 0 are distinct and non-sentinel). -/
theorem cvtToFuzzy_line_witness :
    cvtToFuzzy [0, 50, 100] 100 0 =
      .ok (([0, 50, 100] : List ℚ).map fun x =>
        clipFuzzy (lineThrough 0 (-1) 100 1 x)) :=
  cvtToFuzzy_line.1 [0, 50, 100] 100 0 (by norm_num)
    (by norm_num [MinForFuzzyLimit]) (by norm_num [MaxForFuzzyLimit])
    (by norm_num [MinForFuzzyLimit]) (by norm_num [MaxForFuzzyLimit])

/-- Counterexample to C8 as stated: the claim special-cases cells whose
truest value is `+1` to the result `-1`, but on the cell `[1, 0]`
(truest `1`, second-truest `0`) the code computes the ordinary formula
`1 - (1 - 0) * (0 + 1) / (1 + 1) = 1/2`, not `-1`. -/
theorem fuzzyXOr_plusOne_not_special :
    fuzzyXOrCell [1, 0] = 1/2 ∧ (1/2 : ℚ) ≠ -1 := by
  constructor
  · norm_num [fuzzyXOrCell, List.insertionSort, List.orderedInsert,
      clipFuzzy, clipHi, clipLo]
  · norm_num

/-- C8 amended: for at least two input fields, each XOR cell equals
`truest - (truest - second) * (second - (-1)) / (truest - (-1))` over
the two largest values at the cell, except that a cell whose truest
value is `-1` (not `+1`) is special-cased to `-1`; and XOR over fewer
than two input fields fails. -/
theorem fuzzyXOr_formula :
    (∀ xs : List ℚ, 2 ≤ xs.length →
      ∃ t u pre, xs.Perm (pre ++ [u, t]) ∧ (∀ v ∈ pre, v ≤ u) ∧ u ≤ t ∧
        fuzzyXOrCell xs =
          if t = -1 then (-1 : ℚ)
          else clipFuzzy (t - (t - u) * (u - -1) / (t - -1))) ∧
    (∀ inFieldNames : List String, inFieldNames.length < 2 →
      fuzzyXOrArityCheck inFieldNames = .error .xorTooFewFields) := by
  constructor
  · intro xs hlen
    have hperm : (xs.insertionSort (· ≤ ·)).Perm xs := List.perm_insertionSort _ xs
    have hsorted : (xs.insertionSort (· ≤ ·)).Sorted (· ≤ ·) :=
      List.sorted_insertionSort _ xs
    have hslen : (xs.insertionSort (· ≤ ·)).length = xs.length := hperm.length_eq
    rcases List.eq_nil_or_concat (xs.insertionSort (· ≤ ·)) with hnil | ⟨s1, t, hcat⟩
    · rw [hnil] at hslen
      simp only [List.length_nil] at hslen
      omega
    rw [List.concat_eq_append] at hcat
    rcases List.eq_nil_or_concat s1 with hnil1 | ⟨pre, u, hcat1⟩
    · rw [hcat, hnil1] at hslen
      simp only [List.nil_append, List.length_singleton] at hslen
      omega
    rw [List.concat_eq_append] at hcat1
    have hsplit : xs.insertionSort (· ≤ ·) = pre ++ [u, t] := by
      rw [hcat, hcat1, List.append_assoc]; rfl
    have hT : (pre ++ [u, t]).getLastD 0 = t := by
      have h0 : ((pre ++ [u]) ++ [t]).getLastD 0 = t := List.getLastD_concat _ _ _
      rw [List.append_assoc] at h0
      exact h0
    have hDrop : (pre ++ [u, t]).dropLast = pre ++ [u] := by
      have h0 : ((pre ++ [u]) ++ [t]).dropLast = pre ++ [u] := List.dropLast_concat
      rw [List.append_assoc] at h0
      exact h0
    have hU : (pre ++ [u, t]).dropLast.getLastD 0 = u := by
      rw [hDrop]
      exact List.getLastD_concat _ _ _
    refine ⟨t, u, pre, ?_, ?_, ?_, ?_⟩
    · exact hsplit ▸ hperm.symm
    · have := (List.pairwise_append.mp (hsplit ▸ hsorted)).2.2
      intro v hv
      exact this v hv u (by simp)
    · have := (List.pairwise_append.mp (hsplit ▸ hsorted)).2.1
      simpa using this
    · unfold fuzzyXOrCell
      simp only [hsplit, hT, hU]
      by_cases ht : t = -1
      · rw [if_pos ht, if_neg (by simp [ht])]
        norm_num [clipFuzzy, clipHi, clipLo]
      · rw [if_neg ht, if_pos ht]
  · intro names hlen
    unfold fuzzyXOrArityCheck
    rw [if_pos hlen]

/-- Witness for C8's amended theorem: the cell `[1, 0]` and a
single-field name list. -/
theorem fuzzyXOr_formula_witness :
    (∃ t u pre, ([1, 0] : List ℚ).Perm (pre ++ [u, t]) ∧
      (∀ v ∈ pre, v ≤ u) ∧ u ≤ t ∧
      fuzzyXOrCell [1, 0] =
        if t = -1 then (-1 : ℚ)
        else clipFuzzy (t - (t - u) * (u - -1) / (t - -1))) ∧
    fuzzyXOrArityCheck ["A"] = .error .xorTooFewFields :=
  ⟨fuzzyXOr_formula.1 [1, 0] (by norm_num),
   fuzzyXOr_formula.2 ["A"] (by norm_num)⟩

/-- C9: the claim's formula is exactly what the runner method
`FuzzyEMDSWeighteddAnd` computes per cell, but `RunProgram`'s
`WTDEMDSAND` branch looks up the attribute `FuzzyEMDSWeightedAnd`
(single `d`), which no runner class defines, so dispatching a
`WTDEMDSAND` command raises `AttributeError` instead of producing the
field. -/
theorem wtdEmdsAndDispatch_attributeError :
    (∀ (x : ℚ) (xs : List ℚ) (w : ℚ) (ws : List ℚ),
      dispatchWTDEMDSANDCell x xs w ws =
        .error (.attributeError "FuzzyEMDSWeightedAnd")) ∧
    wtdEmdsAndDispatchTarget ∉ runnerMethodNames ∧
    "FuzzyEMDSWeighteddAnd" ∈ runnerMethodNames := by
  refine ⟨fun x xs w ws => ?_, by decide, by decide⟩
  have hc : runnerMethodNames.contains wtdEmdsAndDispatchTarget = false := by decide
  unfold dispatchWTDEMDSANDCell
  rw [hc]
  rfl

/-- C10: calling `MeanToMid` with `ignoreZeros` false evaluates
`cp.deepcopy(...)` and raises `NameError` before computing any
statistic, because the module never binds the name `cp` (only `re` and
`np` are imported). -/
theorem meanToMid_nameError (data fuzzyValues : List ℚ) :
    meanToMid data false fuzzyValues = .error (.nameError "cp") := by
  have hcp : "cp" ∉ eemsModuleTopLevelNames := by decide
  simp [meanToMid, hcp]
  rfl

/-- C6: command construction enforces the cross-field cardinality
checks universally: every weighted command (`WTDUNION`, `WTDMEAN`,
`WTDSUM`, `WTDEMDSAND`) whose `InFieldNames` and `Weights` lists differ
in length fails with the length-mismatch error, and every
`SELECTEDUNION` whose `NumberToConsider` exceeds the length of its
`InFieldNames` list fails with the too-big error. -/
theorem validateCmd_cardinality_checks :
    (∀ p : CmdParams,
      p.cmd ∈ ["WTDUNION", "WTDMEAN", "WTDSUM", "WTDEMDSAND"] →
      p.inFieldNames.length ≠ p.weights.length →
      validateCmdCrossChecks p =
        .error (.weightsLenMismatch p.inFieldNames.length p.weights.length)) ∧
    (∀ p : CmdParams,
      p.cmd = "SELECTEDUNION" →
      p.numberToConsider > (p.inFieldNames.length : Int) →
      validateCmdCrossChecks p =
        .error (.numberToConsiderTooBig p.numberToConsider
          p.inFieldNames.length)) := by
  constructor
  · intro p hmem hne
    have h1 : p.cmd ∉ (["CVTTOFUZZYCURVE", "CVTTOFUZZYCAT"] : List String) := by
      simp only [List.mem_cons, List.not_mem_nil, or_false] at hmem
      rcases hmem with h | h | h | h <;> simp [h]
    simp [validateCmdCrossChecks, h1, hmem, hne]
    rfl
  · intro p hcmd hgt
    have h1 : p.cmd ∉ (["CVTTOFUZZYCURVE", "CVTTOFUZZYCAT"] : List String) := by
      simp [hcmd]
    have h2 : p.cmd ∉
        (["WTDUNION", "WTDMEAN", "WTDSUM", "WTDEMDSAND"] : List String) := by
      simp [hcmd]
    simp [validateCmdCrossChecks, h1, h2, hcmd, hgt]
    rfl

/-- Witness for C6: `WTDMEAN` with two field names and one weight, and
`SELECTEDUNION` with `NumberToConsider = 3` over two field names. -/
theorem validateCmd_cardinality_checks_witness :
    validateCmdCrossChecks
        { cmd := "WTDMEAN", inFieldNames := ["X", "Y"], weights := [1] } =
      .error (.weightsLenMismatch 2 1) ∧
    validateCmdCrossChecks
        { cmd := "SELECTEDUNION", inFieldNames := ["X", "Y"],
          numberToConsider := 3 } =
      .error (.numberToConsiderTooBig 3 2) :=
  ⟨validateCmd_cardinality_checks.1 _ (by decide) (by decide),
   validateCmd_cardinality_checks.2 _ (by decide) (by decide)⟩

end EEMS
